import Mathlib

/-!
Verification development for the guitar-specs web server's request-processing
pipeline and static-asset delivery subsystem.

The Go sources are shallowly embedded as Lean functions:
  - `internal/http/middleware/ratelimit.go`  (sliding-window rate limiter)
  - `internal/http/middleware/realip.go`     (trusted-proxy client-IP resolution)
  - `internal/http/middleware/timeout.go`    (deadline guard with capture buffer)
  - `internal/http/middleware/etag.go`       (content-hash ETag writer)
  - the precompressed static file server and gzip compression middleware
  - `internal/assets/manager.go` and the startup sequence of `cmd/web/main.go`

Go machine integers are modelled as `Nat`/`Int` with explicit `% 2^32` where
overflow matters (SHA-256); `time.Time`/`time.Duration` as `Int`; fallible Go
code as `Except`/`Option`.  Standard-library primitives that the repository
merely calls (`net.ParseIP`, `path.Clean`, `mime.TypeByExtension`, the gzip
encoder) are abstracted as function parameters, so every theorem quantifies
over their behaviour; `crypto/sha256` is implemented concretely below so that
ETag values can be evaluated on concrete inputs.
-/

namespace GuitarSpecs

/-! ## SHA-256 (crypto/sha256), executable, used by the ETag middleware -/

def u32 (x : Nat) : Nat := x % 4294967296

def rotr32 (n x : Nat) : Nat := u32 ((x >>> n) ||| (x <<< (32 - n)))

def shaCh (x y z : Nat) : Nat := (x &&& y) ^^^ ((x ^^^ 4294967295) &&& z)

def shaMaj (x y z : Nat) : Nat := (x &&& y) ^^^ (x &&& z) ^^^ (y &&& z)

def shaBigS0 (x : Nat) : Nat := rotr32 2 x ^^^ rotr32 13 x ^^^ rotr32 22 x

def shaBigS1 (x : Nat) : Nat := rotr32 6 x ^^^ rotr32 11 x ^^^ rotr32 25 x

def shaSmlS0 (x : Nat) : Nat := rotr32 7 x ^^^ rotr32 18 x ^^^ (x >>> 3)

def shaSmlS1 (x : Nat) : Nat := rotr32 17 x ^^^ rotr32 19 x ^^^ (x >>> 10)

def shaK : Array Nat := #[
  1116352408, 1899447441, 3049323471, 3921009573,
  961987163, 1508970993, 2453635748, 2870763221,
  3624381080, 310598401, 607225278, 1426881987,
  1925078388, 2162078206, 2614888103, 3248222580,
  3835390401, 4022224774, 264347078, 604807628,
  770255983, 1249150122, 1555081692, 1996064986,
  2554220882, 2821834349, 2952996808, 3210313671,
  3336571891, 3584528711, 113926993, 338241895,
  666307205, 773529912, 1294757372, 1396182291,
  1695183700, 1986661051, 2177026350, 2456956037,
  2730485921, 2820302411, 3259730800, 3345764771,
  3516065817, 3600352804, 4094571909, 275423344,
  430227734, 506948616, 659060556, 883997877,
  958139571, 1322822218, 1537002063, 1747873779,
  1955562222, 2024104815, 2227730452, 2361852424,
  2428436474, 2756734187, 3204031479, 3329325298]

def shaH0 : Array Nat := #[
  1779033703, 3144134277, 1013904242, 2773480762,
  1359893119, 2600822924, 528734635, 1541459225]

def bytesToWordBE (a b c d : Nat) : Nat := (a <<< 24) ||| (b <<< 16) ||| (c <<< 8) ||| d

def blockWords : List Nat → List Nat
  | a :: b :: c :: d :: rest => bytesToWordBE a b c d :: blockWords rest
  | _ => []

def shaSchedule (block : List Nat) : Array Nat :=
  (List.range 48).foldl (fun w i =>
      w.push (u32 (shaSmlS1 (w.getD (i + 14) 0) + w.getD (i + 9) 0 +
        shaSmlS0 (w.getD (i + 1) 0) + w.getD i 0)))
    (blockWords block).toArray

def shaRound (w : Array Nat) (s : Array Nat) (t : Nat) : Array Nat :=
  let a := s.getD 0 0
  let b := s.getD 1 0
  let c := s.getD 2 0
  let d := s.getD 3 0
  let e := s.getD 4 0
  let f := s.getD 5 0
  let g := s.getD 6 0
  let h := s.getD 7 0
  let t1 := u32 (h + shaBigS1 e + shaCh e f g + shaK.getD t 0 + w.getD t 0)
  let t2 := u32 (shaBigS0 a + shaMaj a b c)
  #[u32 (t1 + t2), a, b, c, u32 (d + t1), e, f, g]

def shaCompress (h : Array Nat) (block : List Nat) : Array Nat :=
  let s := (List.range 64).foldl (shaRound (shaSchedule block)) h
  (Array.range 8).map (fun i => u32 (h.getD i 0 + s.getD i 0))

def beBytes8 (n : Nat) : List Nat :=
  [(n >>> 56) % 256, (n >>> 48) % 256, (n >>> 40) % 256, (n >>> 32) % 256,
   (n >>> 24) % 256, (n >>> 16) % 256, (n >>> 8) % 256, n % 256]

def shaPad (msg : List Nat) : List Nat :=
  let L := msg.length
  msg ++ 0x80 :: List.replicate ((64 + 55 - L % 64) % 64) 0 ++ beBytes8 (8 * L)

def chunksGo : Nat → List Nat → List (List Nat)
  | 0, _ => []
  | _, [] => []
  | fuel + 1, l => l.take 64 :: chunksGo fuel (l.drop 64)

def chunks64 (l : List Nat) : List (List Nat) := chunksGo l.length l

def wordBE4 (n : Nat) : List Nat := [(n >>> 24) % 256, (n >>> 16) % 256, (n >>> 8) % 256, n % 256]

def sha256 (msg : List Nat) : List Nat :=
  (((chunks64 (shaPad msg)).foldl shaCompress shaH0).toList.map wordBE4).flatten

def hexChar (n : Nat) : Char := if n < 10 then Char.ofNat (48 + n) else Char.ofNat (87 + n)

def byteHexChars (b : Nat) : List Char := [hexChar (b / 16), hexChar (b % 16)]

/-- Lowercase hex rendering of a byte list, as Go's `fmt.Sprintf("%x", ...)`. -/
def bytesHex (bs : List Nat) : String := String.mk (bs.map byteHexChars).flatten

/-- The ETag value the middleware derives from a byte string:
`fmt.Sprintf("%x", sha256.Sum256(b)[:8])` wrapped in double quotes. -/
def etagOfBytes (bs : List Nat) : String := "\"" ++ bytesHex ((sha256 bs).take 8) ++ "\""

/-- Go `[]byte(s)` for ASCII strings. -/
def asciiBytes (s : String) : List Nat := s.toList.map Char.toNat

set_option maxRecDepth 100000

/-- Sanity check against the standard SHA-256 test vector for the empty message. -/
theorem sha256_empty_test_vector :
    bytesHex (sha256 []) =
      "e3b0c44298fc1c149afbf4c8996fb92427ae41e4649b934ca495991b7852b855" := by decide

/-- Sanity check against the standard SHA-256 test vector for "abc". -/
theorem sha256_abc_test_vector :
    bytesHex (sha256 (asciiBytes "abc")) =
      "ba7816bf8f01cfea414140de5dae2223b00361a396177a9cb410ff61f20015ad" := by decide

/-! ## Sliding-window rate limiter (`internal/http/middleware/ratelimit.go`)

`time.Time` and `time.Duration` are modelled as `Int` (nanoseconds); `now.Sub(t)`
is `now - t`.  The Go `limit` is a signed `int`, modelled as `Int`.  The
per-client history map `requests map[string][]time.Time` is modelled as a total
function `String → List Int` whose default value is `[]`, matching Go's zero
value for a missing map key. -/

/-- The pruning pass of `RateLimit`: keep timestamps `t` with `now.Sub(t) <= window`. -/
def prune (window now : Int) (times : List Int) : List Int :=
  times.filter (fun t => decide (now - t ≤ window))

/-- One `Allow`-style step of the limiter on a single client's history, as
performed inside the critical section of `RateLimit`: prune, then reject
(keeping the pruned history, not recording `now`) when the count is already at
or above `limit`, otherwise append `now` and allow. -/
def allowStep (limit window : Int) (times : List Int) (now : Int) : Bool × List Int :=
  let valid := prune window now times
  if limit ≤ (valid.length : Int) then (false, valid)
  else (true, valid ++ [now])

/-- The rate-limiting key: `key := r.RemoteAddr`, verbatim. -/
def rateLimitKey (remoteAddr : String) : String := remoteAddr

/-- Map update for `rl.requests[key] = v`. -/
def updateMap (m : String → List Int) (key : String) (v : List Int) : String → List Int :=
  fun k => if k = key then v else m k

/-- The whole middleware body for one request: returns the response status
(`429` on rejection, otherwise the inner handler's status) and the updated
history map. -/
def rateLimit (limit window : Int) (m : String → List Int) (remoteAddr : String)
    (now : Int) (innerStatus : Nat) : Nat × (String → List Int) :=
  let key := rateLimitKey remoteAddr
  let valid := prune window now (m key)
  if limit ≤ (valid.length : Int) then (429, updateMap m key valid)
  else (innerStatus, updateMap m key (valid ++ [now]))

/-- Run a sequence of requests from one client through `allowStep`, returning
the per-request allow/reject decisions and the final history. -/
def runRL (limit window : Int) (hist : List Int) : List Int → List Bool × List Int
  | [] => ([], hist)
  | t :: rest =>
    let s := allowStep limit window hist t
    let r := runRL limit window s.2 rest
    (s.1 :: r.1, r.2)

/-! ## Real-IP resolution (`internal/http/middleware/realip.go`)

`net.IP` is an abstract type parameter with decidable equality (standing for
`net.IP` up to `net.IP.Equal`), and `net.ParseIP` an abstract function
`String → Option IP` (`none` = Go `nil`).  Header lookups return `""` for an
absent header, as `http.Header.Get` does. -/

/-- Go `strings.Split(s, sep)` for a one-character separator. -/
def splitOnChar (sep : Char) : List Char → List (List Char)
  | [] => [[]]
  | c :: rest =>
    let r := splitOnChar sep rest
    if c = sep then [] :: r
    else
      match r with
      | h :: t => (c :: h) :: t
      | [] => [[c]]

def goSplitComma (s : String) : List String := (splitOnChar ',' s.toList).map String.mk

/-- Go `strings.TrimSpace` (ASCII whitespace). -/
def trimSpaceGo (s : String) : String :=
  String.mk (((s.toList.dropWhile Char.isWhitespace).reverse.dropWhile Char.isWhitespace).reverse)

/-- The four proxy headers `extractRealIP` consults, plus the peer address. -/
structure RipRequest where
  remoteAddr : String
  xForwardedFor : String
  xRealIP : String
  xClientIP : String
  cfConnectingIP : String

/-- `extractIPFromAddr`: strip everything from the last `':'` (the port) and parse. -/
def stripPort (s : String) : String :=
  let cs := s.toList
  match cs.reverse.findIdx? (· = ':') with
  | none => s
  | some i => String.mk (cs.take (cs.length - 1 - i))

def extractIPFromAddr {IP : Type} (parseIP : String → Option IP) (addr : String) : Option IP :=
  parseIP (stripPort addr)

/-- `isTrustedProxy`: a `nil` IP is never trusted; otherwise membership in the
trusted list under `net.IP.Equal`. -/
def isTrustedProxy {IP : Type} [DecidableEq IP] (ip : Option IP) (trustedIPs : List IP) : Bool :=
  match ip with
  | none => false
  | some x => trustedIPs.contains x

/-- `extractRealIP`: only when the direct peer is a trusted proxy are the
headers consulted, in order X-Forwarded-For (first comma-separated entry,
trimmed, when it parses), X-Real-IP, X-Client-IP, CF-Connecting-IP; otherwise,
and when no header yields an IP, the verbatim `RemoteAddr`. -/
def extractRealIP {IP : Type} [DecidableEq IP] (parseIP : String → Option IP)
    (r : RipRequest) (trustedIPs : List IP) : String :=
  if !isTrustedProxy (extractIPFromAddr parseIP r.remoteAddr) trustedIPs then
    r.remoteAddr
  else if r.xForwardedFor ≠ "" ∧
      (parseIP (trimSpaceGo ((goSplitComma r.xForwardedFor).headD ""))).isSome then
    trimSpaceGo ((goSplitComma r.xForwardedFor).headD "")
  else if r.xRealIP ≠ "" ∧ (parseIP r.xRealIP).isSome then
    r.xRealIP
  else if r.xClientIP ≠ "" ∧ (parseIP r.xClientIP).isSome then
    r.xClientIP
  else if r.cfConnectingIP ≠ "" ∧ (parseIP r.cfConnectingIP).isSome then
    r.cfConnectingIP
  else
    r.remoteAddr

/-- The `RealIP` middleware constructor's conversion of the configured
trusted-proxy strings: parse each, drop the unparseable ones. -/
def buildTrustedIPs {IP : Type} (parseIP : String → Option IP)
    (trustedProxies : List String) : List IP :=
  trustedProxies.filterMap parseIP

/-- The `RemoteAddr` value seen by handlers downstream of the `RealIP`
middleware: `r.RemoteAddr = extractRealIP(r, trustedIPs)`. -/
def realIPRewrite {IP : Type} [DecidableEq IP] (parseIP : String → Option IP)
    (trustedProxies : List String) (r : RipRequest) : String :=
  extractRealIP parseIP r (buildTrustedIPs parseIP trustedProxies)

/-- The resolution order stated by the specification, written from its words
for the refinement comparison: when the peer is trusted, take the first of the
four headers that parses (first X-Forwarded-For entry, trimmed), else the
original address. -/
def specHeaderResolve {IP : Type} (parseIP : String → Option IP) (r : RipRequest) : String :=
  let xffFirst := trimSpaceGo ((goSplitComma r.xForwardedFor).headD "")
  if (parseIP xffFirst).isSome then xffFirst
  else if (parseIP r.xRealIP).isSome then r.xRealIP
  else if (parseIP r.xClientIP).isSome then r.xClientIP
  else if (parseIP r.cfConnectingIP).isSome then r.cfConnectingIP
  else r.remoteAddr

/-! ## Precompressed static asset server (`PrecompressedFileServer`)

`path.Clean` and `mime.TypeByExtension` are standard-library calls, abstracted
as function parameters (`mimeType` returns `""` for an unknown extension, as Go
does); `fs.Stat` existence is a predicate `statExists`, the TTL existence cache
a partial map from candidate compressed path to its cached entry. `path.Ext` is
implemented concretely.  The result records the headers the middleware itself
sets and the path it hands to the wrapped `http.FileServer`. -/

/-- `strings.TrimPrefix(s, "/")`: remove one leading slash when present. -/
def trimLeadingSlash (s : String) : String :=
  match s.toList with
  | '/' :: rest => String.mk rest
  | _ => s

def listStartsWith : List Char → List Char → Bool
  | _, [] => true
  | [], _ :: _ => false
  | a :: as, b :: bs => a = b && listStartsWith as bs

/-- `strings.Contains` on character lists (naive scan; empty needle found). -/
def containsSubstring (hay needle : List Char) : Bool :=
  match hay with
  | [] => listStartsWith [] needle
  | _ :: t => listStartsWith hay needle || containsSubstring t needle

/-- `strings.Contains(s, sub)`. -/
def strContains (s sub : String) : Bool := containsSubstring s.toList sub.toList

def pathExtGo : List Char → List Char → String
  | [], _ => ""
  | c :: rest, acc =>
    if c = '.' then String.mk ('.' :: acc)
    else if c = '/' then ""
    else pathExtGo rest (c :: acc)

/-- Go `path.Ext`: the suffix beginning at the final dot in the final
slash-separated element, `""` when there is no dot. -/
def pathExt (s : String) : String := pathExtGo s.toList.reverse []

/-- One entry of the existence cache (`cacheEntry{exists bool, time time.Time}`). -/
structure CacheEntry where
  present : Bool
  time : Int
deriving DecidableEq

/-- Existence resolution with the TTL cache: a fresh entry
(`time.Since(entry.time) < cacheTTL`) is believed; otherwise `fs.Stat` is
consulted and the cache entry refreshed. -/
def resolveExists (statExists : String → Bool) (cache : String → Option CacheEntry)
    (now ttl : Int) (key : String) : Bool × (String → Option CacheEntry) :=
  match cache key with
  | some e =>
    if now - e.time < ttl then (e.present, cache)
    else
      let b := statExists key
      (b, fun k => if k = key then some ⟨b, now⟩ else cache k)
  | none =>
    let b := statExists key
    (b, fun k => if k = key then some ⟨b, now⟩ else cache k)

structure PCRequest where
  method : String
  urlPath : String
  acceptEncoding : String

/-- What the middleware did to the response: headers it set itself and the URL
path of the request it forwarded to the underlying file server. -/
structure PCResult where
  varyAE : Bool
  contentType : Option String
  contentEncoding : Option String
  cacheControl : Option String
  servedPath : String
deriving DecidableEq

/-- The immutable year-long cache header set for compressed variants. -/
def immutableCacheControl : String := "public, max-age=31536000, immutable"

/-- Content-Type assignment: `w.Header().Set` only when
`mime.TypeByExtension(path.Ext(clean))` is nonempty. -/
def ctFromExt (mimeType : String → String) (clean : String) : Option String :=
  let c := mimeType (pathExt clean)
  if c = "" then none else some c

/-- The encoded-variant response: Content-Type from the original (uncompressed)
extension, the given Content-Encoding, the immutable Cache-Control, and the
internal rewrite to `r.URL.Path + suffix`. -/
def encodedResult (mimeType : String → String) (clean urlPath enc suffix : String) : PCResult :=
  { varyAE := true
    contentType := ctFromExt mimeType clean
    contentEncoding := some enc
    cacheControl := some immutableCacheControl
    servedPath := urlPath ++ suffix }

/-- The response when no compressed variant is served for a GET/HEAD request:
only the already-added `Vary` header, original path to the base server. -/
def plainResult (urlPath : String) : PCResult :=
  { varyAE := true, contentType := none, contentEncoding := none,
    cacheControl := none, servedPath := urlPath }

/-- The gzip-then-original tail of the handler, entered when the Brotli branch
did not serve. -/
def pcGzipPhase (mimeType : String → String) (statExists : String → Bool)
    (cache : String → Option CacheEntry) (now ttl : Int) (clean urlPath : String)
    (supportsGZ : Bool) : PCResult × (String → Option CacheEntry) :=
  if supportsGZ then
    if (resolveExists statExists cache now ttl (clean ++ ".gz")).1 then
      (encodedResult mimeType clean urlPath "gzip" ".gz",
        (resolveExists statExists cache now ttl (clean ++ ".gz")).2)
    else (plainResult urlPath, (resolveExists statExists cache now ttl (clean ++ ".gz")).2)
  else (plainResult urlPath, cache)

/-- The `PrecompressedFileServer` handler for one request.  Non-GET/HEAD
requests fall through to the base file server untouched (no `Vary`).  For
GET/HEAD the `Vary: Accept-Encoding` header is added, then the `.br` sibling is
preferred when `Accept-Encoding` contains `"br"` and the sibling exists, then
the `.gz` sibling under `"gzip"`, then the original. -/
def precompressedServe (pclean : String → String) (mimeType : String → String)
    (statExists : String → Bool) (cache : String → Option CacheEntry)
    (now ttl : Int) (r : PCRequest) : PCResult × (String → Option CacheEntry) :=
  if r.method ≠ "GET" ∧ r.method ≠ "HEAD" then
    ({ varyAE := false, contentType := none, contentEncoding := none,
       cacheControl := none, servedPath := r.urlPath }, cache)
  else
    if strContains r.acceptEncoding "br" then
      if (resolveExists statExists cache now ttl
            (pclean (trimLeadingSlash r.urlPath) ++ ".br")).1 then
        (encodedResult mimeType (pclean (trimLeadingSlash r.urlPath)) r.urlPath "br" ".br",
          (resolveExists statExists cache now ttl
            (pclean (trimLeadingSlash r.urlPath) ++ ".br")).2)
      else
        pcGzipPhase mimeType statExists
          (resolveExists statExists cache now ttl
            (pclean (trimLeadingSlash r.urlPath) ++ ".br")).2
          now ttl (pclean (trimLeadingSlash r.urlPath)) r.urlPath
          (strContains r.acceptEncoding "gzip")
    else
      pcGzipPhase mimeType statExists cache now ttl (pclean (trimLeadingSlash r.urlPath))
        r.urlPath (strContains r.acceptEncoding "gzip")

/-! ## Header maps and the ETag middleware (`internal/http/middleware/etag.go`)

`http.Header` is modelled as an association list; `Get` returns the first
value or `""` when absent, `Set` replaces, `Add` appends.  The wrapping writers
(`etagResponseWriter`, `compressResponseWriter`) embed the real
`http.ResponseWriter`, so all layers share the real writer's single live header
map; the response on the wire snapshots it when the real writer commits (first
`Write` or `WriteHeader`). -/

def hdrGet (h : List (String × String)) (k : String) : String :=
  match h.find? (fun p => p.1 = k) with
  | some p => p.2
  | none => ""

def hdrSet (h : List (String × String)) (k v : String) : List (String × String) :=
  (k, v) :: h.filter (fun p => p.1 ≠ k)

def hdrAdd (h : List (String × String)) (k v : String) : List (String × String) :=
  h ++ [(k, v)]

/-- Shared state of the real response writer plus the ETag and compression
wrappers stacked on it (`mw.ETag(mw.Compress(...)(handler))`).  The compression
fields are unused when the ETag writer is driven directly. -/
structure PipeState where
  hdr : List (String × String)
  committed : Bool
  cStatus : Nat
  cHdr : List (String × String)
  out : List Nat
  etagBody : List Nat
  cwShould : Bool
  gzInit : Bool
  gzBuf : List Nat
  cwBuf : List Nat

def pipeInit : PipeState :=
  { hdr := [], committed := false, cStatus := 0, cHdr := [], out := [],
    etagBody := [], cwShould := false, gzInit := false, gzBuf := [], cwBuf := [] }

/-- The real writer's commit: the first `WriteHeader` (explicit or implicit)
fixes the status and snapshots the live header map onto the wire. -/
def realCommit (s : PipeState) (code : Nat) : PipeState :=
  if s.committed then s
  else { s with committed := true, cStatus := code, cHdr := s.hdr }

def realWrite (s : PipeState) (data : List Nat) : PipeState :=
  let s1 := realCommit s 200
  { s1 with out := s1.out ++ data }

/-- `etagResponseWriter.Write`: accumulate the body, set the ETag from the
accumulated content when the header is still unset, then forward. -/
def etagWrite (s : PipeState) (data : List Nat) : PipeState :=
  let s1 := { s with etagBody := s.etagBody ++ data }
  let s2 :=
    if hdrGet s1.hdr "ETag" = "" then
      { s1 with hdr := hdrSet s1.hdr "ETag" (etagOfBytes s1.etagBody) }
    else s1
  realWrite s2 data

/-- `etagResponseWriter.WriteHeader`: when no ETag is set yet, derive it from
the accumulated content, or from the request URL path when the body is empty;
then forward. -/
def etagWriteHeader (pathBytes : List Nat) (s : PipeState) (code : Nat) : PipeState :=
  let s1 :=
    if hdrGet s.hdr "ETag" = "" then
      if 0 < s.etagBody.length then
        { s with hdr := hdrSet s.hdr "ETag" (etagOfBytes s.etagBody) }
      else
        { s with hdr := hdrSet s.hdr "ETag" (etagOfBytes pathBytes) }
    else s
  realCommit s1 code

/-- Operations a handler can perform on the response writer handed to it. -/
inductive HOp where
  | setHeader (k v : String)
  | writeHeader (code : Nat)
  | write (data : List Nat)

/-- Driving the ETag writer directly (ETag middleware over the real writer). -/
def etagApply (pathBytes : List Nat) (s : PipeState) : HOp → PipeState
  | .setHeader k v => { s with hdr := hdrSet s.hdr k v }
  | .writeHeader code => etagWriteHeader pathBytes s code
  | .write data => etagWrite s data

def etagRun (pathBytes : List Nat) (ops : List HOp) : PipeState :=
  ops.foldl (etagApply pathBytes) pipeInit

/-! ## Gzip compression middleware (`Compress`) stacked inside ETag

The gzip encoder is abstracted as `gz : List Nat → List Nat` (the complete
stream the encoder emits on `Close` for everything written to it; no
intermediate flush, which matches outputs below the deflate buffer size).
`compressResponseWriter` is the branch taken when no Content-Type is set at
request entry, which is the case for the composition in `app.New`. -/

/-- `strings.HasPrefix(s, pre)`. -/
def strStartsWith (s pre : String) : Bool := listStartsWith s.toList pre.toList

/-- `shouldCompress`: exact allow-list hit or prefix match
(`text/` matching `text/html` and the like). -/
def shouldCompressCT (contentType : String) (allowedTypes : List String) : Bool :=
  allowedTypes.contains contentType || allowedTypes.any (fun a => strStartsWith contentType a)

/-- `compressResponseWriter.Write`. -/
def cwWrite (s : PipeState) (data : List Nat) : PipeState :=
  if !s.cwShould then etagWrite s data
  else if !s.gzInit then { s with cwBuf := s.cwBuf ++ data }
  else { s with gzBuf := s.gzBuf ++ data }

/-- `compressResponseWriter.WriteHeader`: decide compression from the
Content-Type now in the shared header map; on a compressible type initialise
the gzip writer (valid level, so no error), set `Content-Encoding: gzip`, add
`Vary`, move any buffered bytes into the gzip stream; otherwise flush the
buffer straight through.  Finally forward to the underlying (ETag) writer. -/
def cwWriteHeader (pathBytes : List Nat) (allowed : List String)
    (s : PipeState) (code : Nat) : PipeState :=
  let should := shouldCompressCT (hdrGet s.hdr "Content-Type") allowed
  let s1 := { s with cwShould := should }
  let s2 :=
    if should then
      let newHdr := hdrAdd (hdrSet s1.hdr "Content-Encoding" "gzip") "Vary" "Accept-Encoding"
      let sa := { s1 with gzInit := true, hdr := newHdr }
      if 0 < sa.cwBuf.length then { sa with gzBuf := sa.gzBuf ++ sa.cwBuf, cwBuf := [] } else sa
    else
      if 0 < s1.cwBuf.length then
        let sb := etagWrite s1 s1.cwBuf
        { sb with cwBuf := [] }
      else s1
  etagWriteHeader pathBytes s2 code

/-- `compressResponseWriter.Close`: emit the gzip stream into the underlying
(ETag) writer when the encoder was initialised. -/
def cwClose (gz : List Nat → List Nat) (s : PipeState) : PipeState :=
  if s.gzInit then etagWrite s (gz s.gzBuf) else s

def cwApply (pathBytes : List Nat) (allowed : List String) (s : PipeState) : HOp → PipeState
  | .setHeader k v => { s with hdr := hdrSet s.hdr k v }
  | .writeHeader code => cwWriteHeader pathBytes allowed s code
  | .write data => cwWrite s data

/-- A GET request run through `mw.ETag(mw.Compress(level, allowed...)(handler))`
for a gzip-accepting client with no Content-Type set at entry: the handler
drives the compress writer, which feeds the ETag writer, which feeds the real
writer; the middleware closes the compress writer afterwards. -/
def etagCompressRun (gz : List Nat → List Nat) (allowed : List String)
    (pathBytes : List Nat) (ops : List HOp) : PipeState :=
  cwClose gz (ops.foldl (cwApply pathBytes allowed) pipeInit)

/-! ## Deadline guard (`internal/http/middleware/timeout.go`, capture-buffer
version)

The inner handler runs on its own goroutine against a `capturingResponseWriter`
(its own header map, status, and buffer — nothing reaches the client); the
middleware goroutine races the handler's completion channel against the
deadline and is the only writer to the real connection.  An interleaving is a
schedule of handler steps and at most one decision event (`fire` = deadline
first, `complete` = handler done first, enabled only when all handler
operations have run). -/

structure CapState where
  hdr : List (String × String)
  statusCode : Nat
  wroteHeader : Bool
  buf : List Nat
deriving DecidableEq

def capInit : CapState := { hdr := [], statusCode := 0, wroteHeader := false, buf := [] }

/-- `capturingResponseWriter`'s `Header`/`WriteHeader`/`Write`. -/
def capApply (s : CapState) : HOp → CapState
  | .setHeader k v => { s with hdr := hdrSet s.hdr k v }
  | .writeHeader code =>
    if s.wroteHeader then s else { s with wroteHeader := true, statusCode := code }
  | .write data =>
    let s1 := if !s.wroteHeader then { s with wroteHeader := true, statusCode := 200 } else s
    { s1 with buf := s1.buf ++ data }

/-- One coherent response on the client connection. -/
structure ClientResponse where
  status : Nat
  hdr : List (String × String)
  body : List Nat
deriving DecidableEq

/-- `capturingResponseWriter.flush`: captured headers, captured status
(defaulting to 200), captured body, verbatim. -/
def capFlush (s : CapState) : ClientResponse :=
  { status := if s.statusCode = 0 then 200 else s.statusCode, hdr := s.hdr, body := s.buf }

/-- `http.Error(w, "Request Timeout", http.StatusRequestTimeout)`. -/
def resp408 : ClientResponse :=
  { status := 408
    hdr := [("Content-Type", "text/plain; charset=utf-8"), ("X-Content-Type-Options", "nosniff")]
    body := asciiBytes "Request Timeout\n" }

inductive TEvent where
  | hstep
  | fire
  | complete

structure TState where
  pending : List HOp
  cap : CapState
  sent : List ClientResponse
  decided : Bool

def tInit (ops : List HOp) : TState :=
  { pending := ops, cap := capInit, sent := [], decided := false }

/-- One scheduler step: a handler step applies the next handler operation to
the capture buffer only; `fire` writes the 408 to the client (once); `complete`
flushes the captured response (once, and only when the handler has finished).
`none` = the event is not enabled. -/
def tStep (s : TState) : TEvent → Option TState
  | .hstep =>
    match s.pending with
    | [] => none
    | op :: rest => some { s with pending := rest, cap := capApply s.cap op }
  | .fire =>
    if s.decided then none
    else some { s with decided := true, sent := s.sent ++ [resp408] }
  | .complete =>
    if s.decided || !s.pending.isEmpty then none
    else some { s with decided := true, sent := s.sent ++ [capFlush s.cap] }

def tRun (s : TState) : List TEvent → Option TState
  | [] => some s
  | e :: es => (tStep s e).bind (fun s' => tRun s' es)

/-! ## Asset manifest loading and startup gating
(`internal/assets/manager.go`, `cmd/web/main.go`)

Bytes on disk are an abstract `read : String → Option (List Nat)`;
`json.Unmarshal` into `AssetManifestWrapper` is an abstract
`unmarshal : List Nat → Option (List (String × AssetInfo))` returning the
`files` map as an association list (`none` = parse error, `some []` = missing
or empty `files`). -/

structure AssetInfo where
  path : String
  filename : String
  sri : String
  size : Int
  contentType : String
deriving DecidableEq

def manifestPaths : List String :=
  ["static/dist/js/manifest.json", "web/static/dist/js/manifest.json", "dist/js/manifest.json"]

def firstReadable (read : String → Option (List Nat)) : List String → Option (List Nat)
  | [] => none
  | p :: rest =>
    match read p with
    | some bs => some bs
    | none => firstReadable read rest

/-- `loadManifest`: read the first path that succeeds, parse, reject an empty
`files` map. -/
def loadManifest (read : String → Option (List Nat))
    (unmarshal : List Nat → Option (List (String × AssetInfo))) :
    Except String (List (String × AssetInfo)) :=
  match firstReadable read manifestPaths with
  | none => .error "failed to read manifest file from any of the paths"
  | some bs =>
    match unmarshal bs with
    | none => .error "failed to parse manifest JSON"
    | some files => if files.length = 0 then .error "manifest is empty" else .ok files

def exceptOk {ε α : Type} : Except ε α → Bool
  | .ok _ => true
  | .error _ => false

/-- The gating of `main`: each numbered startup step exits the process (via
`os.Exit(1)`) on failure before the HTTP server is ever constructed; the asset
manager step fails exactly when `loadManifest` does. -/
def mainStarts (configValid httpsValid dbConnected dbPinged : Bool)
    (manifestResult : Except String (List (String × AssetInfo))) (rendererOk : Bool) : Bool :=
  configValid && httpsValid && dbConnected && dbPinged && exceptOk manifestResult && rendererOk

/-- The historical `app.New` versions-map gate: on a `BuildAssetVersions`
error the build is retried once and the constructor panics when the retry also
fails. -/
def buildVersionsGate (firstTry retry : Except String (List (String × String))) : Bool :=
  match firstTry with
  | .ok _ => true
  | .error _ => exceptOk retry

/-! ## Asset manager lookups (`internal/assets/manager.go`)

`AssetURL`/`AssetSRI` try the path verbatim and with the leading slash
trimmed.  On the not-found path both call `am.logger.Warn` WITHOUT the nil
check used everywhere else in the file; with a nil logger that call
dereferences a nil `*slog.Logger` and panics, modelled as `Except.error`. -/

def lookupManifest (m : List (String × AssetInfo)) (p : String) : Option AssetInfo :=
  (m.find? (fun e => e.1 = p)).map (fun e => e.2)

def pathsToTry (p : String) : List String := [p, trimLeadingSlash p]

def firstHit (m : List (String × AssetInfo)) : List String → Option AssetInfo
  | [] => none
  | q :: rest =>
    match lookupManifest m q with
    | some i => some i
    | none => firstHit m rest

/-- `AssetManager.AssetURL`; `loggerPresent` is whether `am.logger != nil`. -/
def assetURL (loggerPresent : Bool) (m : List (String × AssetInfo)) (p : String) :
    Except Unit String :=
  match firstHit m (pathsToTry p) with
  | some info => .ok info.path
  | none => if loggerPresent then .ok p else .error ()

/-- `AssetManager.AssetSRI`; same not-found structure as `AssetURL`. -/
def assetSRI (loggerPresent : Bool) (m : List (String × AssetInfo)) (p : String) :
    Except Unit String :=
  match firstHit m (pathsToTry p) with
  | some info => .ok info.sri
  | none => if loggerPresent then .ok "" else .error ()

/-! ## Rate limiter lemmas and claim C1 -/

theorem prune_length_le (w now : Int) (ts : List Int) :
    (prune w now ts).length ≤ ts.length :=
  List.length_filter_le _ _

theorem prune_of_all (w now : Int) (ts : List Int) (h : ∀ t ∈ ts, now - t ≤ w) :
    prune w now ts = ts := by
  unfold prune
  exact List.filter_eq_self.mpr (fun t ht => decide_eq_true (h t ht))

theorem runRL_append (l w : Int) (h : List Int) (xs ys : List Int) :
    runRL l w h (xs ++ ys) =
      ((runRL l w h xs).1 ++ (runRL l w (runRL l w h xs).2 ys).1,
        (runRL l w (runRL l w h xs).2 ys).2) := by
  induction xs generalizing h with
  | nil => simp [runRL]
  | cons t rest ih => simp [runRL, ih]

theorem runRL_all_allowed (l w : Int) (hist ts : List Int)
    (h : (hist.length : Int) + ts.length ≤ l) :
    (runRL l w hist ts).1 = List.replicate ts.length true := by
  induction ts generalizing hist with
  | nil => simp [runRL]
  | cons t rest ih =>
    have hlt : ((prune w t hist).length : Int) < l := by
      have h1 : ((prune w t hist).length : Int) ≤ (hist.length : Int) :=
        Int.ofNat_le.mpr (prune_length_le w t hist)
      have h2 : (hist.length : Int) + ((rest.length : Int) + 1) ≤ l := by
        simpa [List.length_cons, Int.add_comm, Int.add_assoc] using h
      omega
    have hcond : ¬ l ≤ ((prune w t hist).length : Int) := by omega
    have hnext : (((prune w t hist ++ [t]).length : Int)) + rest.length ≤ l := by
      have h1 : ((prune w t hist).length : Int) ≤ (hist.length : Int) :=
        Int.ofNat_le.mpr (prune_length_le w t hist)
      simp only [List.length_append, List.length_singleton]
      push_cast
      simp only [List.length_cons] at h
      push_cast at h
      omega
    simp only [runRL, allowStep, if_neg hcond, List.length_cons, List.replicate_succ]
    exact congrArg (List.cons true) (ih (prune w t hist ++ [t]) hnext)

theorem runRL_in_window (l w : Int) (hist ts : List Int)
    (hlen : (hist.length : Int) + ts.length ≤ l)
    (hwin : (hist ++ ts).Pairwise (fun a b => b - a ≤ w)) :
    runRL l w hist ts = (List.replicate ts.length true, hist ++ ts) := by
  induction ts generalizing hist with
  | nil => simp [runRL]
  | cons t rest ih =>
    have hmem : ∀ x ∈ hist, t - x ≤ w := by
      intro x hx
      have := (List.pairwise_append.mp hwin).2.2 x hx t (by simp)
      exact this
    have hp : prune w t hist = hist := prune_of_all w t hist hmem
    have hlt : ¬ l ≤ ((prune w t hist).length : Int) := by
      rw [hp]
      have : (hist.length : Int) + ((rest.length : Int) + 1) ≤ l := by
        simpa [List.length_cons, Int.add_comm, Int.add_assoc] using hlen
      omega
    have hwin' : ((hist ++ [t]) ++ rest).Pairwise (fun a b => b - a ≤ w) := by
      simpa [List.append_assoc] using hwin
    have hlen' : (((hist ++ [t]).length : Int)) + rest.length ≤ l := by
      simp only [List.length_append, List.length_singleton]
      simp only [List.length_cons] at hlen
      push_cast
      push_cast at hlen
      omega
    rw [hp] at hlt
    have := ih (hist ++ [t]) hlen' hwin'
    simp only [runRL, allowStep, hp, if_neg hlt, this]
    simp [List.replicate_succ, List.append_assoc]

theorem runRL_zero_limit (w : Int) (hist ts : List Int) :
    (runRL 0 w hist ts).1 = List.replicate ts.length false := by
  induction ts generalizing hist with
  | nil => simp [runRL]
  | cons t rest ih =>
    have hcond : (0 : Int) ≤ ((prune w t hist).length : Int) := Int.ofNat_nonneg _
    simp only [runRL, allowStep, if_pos hcond, List.length_cons, List.replicate_succ]
    exact congrArg (List.cons false) (ih (prune w t hist))

/-- C1. Sliding-window semantics of `RateLimit`: each call first prunes the
client's history to timestamps within `now - window`; when the remaining count
is at or above `limit` the response is `429` and `now` is not recorded (the
stored history is exactly the pruned one); otherwise `now` is appended and the
inner handler's status is returned.  Consequently: a client issuing at most
`limit` requests (from an empty history) has every request allowed; for
requests all lying within one window, the `limit + 1`-th is rejected; and with
`limit = 0` every request is rejected. -/
theorem C1_ratelimit_sliding_window :
    (∀ (limit window now : Int) (m : String → List Int) (addr : String) (st : Nat),
        limit ≤ ((prune window now (m addr)).length : Int) →
        rateLimit limit window m addr now st =
          (429, updateMap m addr (prune window now (m addr)))) ∧
    (∀ (limit window now : Int) (m : String → List Int) (addr : String) (st : Nat),
        ((prune window now (m addr)).length : Int) < limit →
        rateLimit limit window m addr now st =
          (st, updateMap m addr (prune window now (m addr) ++ [now]))) ∧
    (∀ (limit window : Int) (ts : List Int),
        (ts.length : Int) ≤ limit →
        (runRL limit window [] ts).1 = List.replicate ts.length true) ∧
    (∀ (n : Nat) (window : Int) (ts : List Int) (tlast : Int),
        ts.length = n →
        (ts ++ [tlast]).Pairwise (fun a b => b - a ≤ window) →
        (runRL (n : Int) window [] (ts ++ [tlast])).1 =
          List.replicate n true ++ [false]) ∧
    (∀ (window : Int) (hist ts : List Int),
        (runRL 0 window hist ts).1 = List.replicate ts.length false) := by
  refine ⟨?_, ?_, ?_, ?_, ?_⟩
  · intro limit window now m addr st h
    simp [rateLimit, rateLimitKey, if_pos h]
  · intro limit window now m addr st h
    have : ¬ limit ≤ ((prune window now (m addr)).length : Int) := by omega
    simp [rateLimit, rateLimitKey, if_neg this]
  · intro limit window ts h
    exact runRL_all_allowed limit window [] ts (by simpa using h)
  · intro n window ts tlast hn hwin
    have hts : runRL (n : Int) window [] ts = (List.replicate ts.length true, ts) := by
      have := runRL_in_window (n : Int) window [] ts (by simp [hn]) (by simpa using hwin.sublist (List.sublist_append_left ts [tlast]))
      simpa using this
    have hmem : ∀ x ∈ ts, tlast - x ≤ window := by
      intro x hx
      exact (List.pairwise_append.mp hwin).2.2 x hx tlast (by simp)
    have hp : prune window tlast ts = ts := prune_of_all window tlast ts hmem
    rw [runRL_append]
    simp [hts, hn, runRL, allowStep, hp]
  · intro window hist ts
    exact runRL_zero_limit window hist ts

/-- C1 witness: the spec's concrete scenario shape — `limit = 3`, four
requests in quick succession inside one window: the first three allowed, the
fourth rejected. -/
theorem C1_witness :
    (runRL ((3 : Nat) : Int) 100 [] ([0, 1, 2] ++ [3])).1 =
      List.replicate 3 true ++ [false] :=
  C1_ratelimit_sliding_window.2.2.2.1 3 100 [0, 1, 2] 3 rfl (by decide)

/-! ## Real-IP claims C5 and C8 -/

theorem extractRealIP_untrusted {IP : Type} [DecidableEq IP]
    (parseIP : String → Option IP) (r : RipRequest) (trustedIPs : List IP)
    (h : isTrustedProxy (extractIPFromAddr parseIP r.remoteAddr) trustedIPs = false) :
    extractRealIP parseIP r trustedIPs = r.remoteAddr := by
  unfold extractRealIP
  rw [h]
  simp

/-- C5. Real-IP noninterference: when the direct peer does not resolve to a
configured trusted proxy, the resolved address is the verbatim `RemoteAddr`,
so two requests that agree on `RemoteAddr` and differ arbitrarily in
X-Forwarded-For, X-Real-IP, X-Client-IP and CF-Connecting-IP resolve
identically; and when the peer IS trusted, the result follows exactly the
claimed preference order (first X-Forwarded-For entry when it parses, then
X-Real-IP, X-Client-IP, CF-Connecting-IP, else the original address), given
that the parser rejects the empty string as `net.ParseIP` does. -/
theorem C5_realip_noninterference :
    (∀ (IP : Type) (_ : DecidableEq IP) (parseIP : String → Option IP)
        (trustedProxies : List String) (r1 r2 : RipRequest),
        r1.remoteAddr = r2.remoteAddr →
        isTrustedProxy (extractIPFromAddr parseIP r1.remoteAddr)
          (buildTrustedIPs parseIP trustedProxies) = false →
        realIPRewrite parseIP trustedProxies r1 = r1.remoteAddr ∧
        realIPRewrite parseIP trustedProxies r2 = realIPRewrite parseIP trustedProxies r1) ∧
    (∀ (IP : Type) (_ : DecidableEq IP) (parseIP : String → Option IP)
        (trustedIPs : List IP) (r : RipRequest),
        parseIP "" = none →
        isTrustedProxy (extractIPFromAddr parseIP r.remoteAddr) trustedIPs = true →
        extractRealIP parseIP r trustedIPs = specHeaderResolve parseIP r) := by
  constructor
  · intro IP _ parseIP trustedProxies r1 r2 haddr h
    have h1 : realIPRewrite parseIP trustedProxies r1 = r1.remoteAddr :=
      extractRealIP_untrusted parseIP r1 _ h
    have h2 : realIPRewrite parseIP trustedProxies r2 = r2.remoteAddr := by
      apply extractRealIP_untrusted parseIP r2
      rw [← haddr]
      exact h
    exact ⟨h1, by rw [h1, h2, haddr]⟩
  · intro IP _ parseIP trustedIPs r hempty htrust
    have g : ∀ s : String, (s ≠ "" ∧ (parseIP s).isSome = true) ↔
        ((parseIP s).isSome = true) := by
      intro s
      constructor
      · exact fun h => h.2
      · intro h
        refine ⟨?_, h⟩
        intro he
        rw [he, hempty] at h
        simp at h
    have gxff : (r.xForwardedFor ≠ "" ∧
          (parseIP (trimSpaceGo ((goSplitComma r.xForwardedFor).headD ""))).isSome = true) ↔
        ((parseIP (trimSpaceGo ((goSplitComma r.xForwardedFor).headD ""))).isSome = true) := by
      constructor
      · exact fun h => h.2
      · intro h
        refine ⟨?_, h⟩
        intro he
        rw [he] at h
        have hz : trimSpaceGo ((goSplitComma "").headD "") = "" := by decide
        rw [hz, hempty] at h
        simp at h
    unfold extractRealIP specHeaderResolve
    rw [htrust]
    simp only [Bool.not_true, Bool.false_eq_true, if_false]
    exact if_congr gxff rfl (if_congr (g r.xRealIP) rfl
      (if_congr (g r.xClientIP) rfl (if_congr (g r.cfConnectingIP) rfl rfl)))

/-- C5 witness: a toy parser over `IP := Nat` where only `"1.1.1.1"` parses; a
spoofed X-Forwarded-For from an untrusted peer leaves `RemoteAddr` untouched,
and for a trusted peer the code agrees with the claimed preference order. -/
theorem C5_witness :
    (realIPRewrite (fun s => if s = "1.1.1.1" then some (1 : Nat) else none) ["2.2.2.2"]
        { remoteAddr := "9.9.9.9:1234", xForwardedFor := "6.6.6.6",
          xRealIP := "", xClientIP := "", cfConnectingIP := "" } = "9.9.9.9:1234") ∧
    (extractRealIP (fun s => if s = "1.1.1.1" then some (1 : Nat) else none)
        { remoteAddr := "1.1.1.1:50", xForwardedFor := "1.1.1.1, 7.7.7.7",
          xRealIP := "", xClientIP := "", cfConnectingIP := "" } [1] =
      specHeaderResolve (fun s => if s = "1.1.1.1" then some (1 : Nat) else none)
        { remoteAddr := "1.1.1.1:50", xForwardedFor := "1.1.1.1, 7.7.7.7",
          xRealIP := "", xClientIP := "", cfConnectingIP := "" }) :=
  ⟨(C5_realip_noninterference.1 Nat instDecidableEqNat
      (fun s => if s = "1.1.1.1" then some (1 : Nat) else none) ["2.2.2.2"]
      { remoteAddr := "9.9.9.9:1234", xForwardedFor := "6.6.6.6",
        xRealIP := "", xClientIP := "", cfConnectingIP := "" }
      { remoteAddr := "9.9.9.9:1234", xForwardedFor := "6.6.6.6",
        xRealIP := "", xClientIP := "", cfConnectingIP := "" }
      rfl (by decide)).1,
    C5_realip_noninterference.2 Nat instDecidableEqNat
      (fun s => if s = "1.1.1.1" then some (1 : Nat) else none) [1]
      { remoteAddr := "1.1.1.1:50", xForwardedFor := "1.1.1.1, 7.7.7.7",
        xRealIP := "", xClientIP := "", cfConnectingIP := "" }
      (by decide) (by decide)⟩

/-- C8. The limiter keys by the verbatim `RemoteAddr`; an untrusted direct
peer keeps its `IP:port` form through the Real-IP middleware; distinct ports
therefore give distinct keys, and a step of the limiter under one key leaves
every other key's history (and hence quota) untouched. -/
theorem C8_ratelimit_key_verbatim_remoteaddr :
    (∀ addr : String, rateLimitKey addr = addr) ∧
    (∀ (IP : Type) (_ : DecidableEq IP) (parseIP : String → Option IP)
        (trustedProxies : List String) (r : RipRequest),
        isTrustedProxy (extractIPFromAddr parseIP r.remoteAddr)
          (buildTrustedIPs parseIP trustedProxies) = false →
        realIPRewrite parseIP trustedProxies r = r.remoteAddr) ∧
    (rateLimitKey "203.0.113.5:1000" ≠ rateLimitKey "203.0.113.5:2000") ∧
    (∀ (limit window : Int) (m : String → List Int) (addr other : String)
        (now : Int) (st : Nat),
        other ≠ addr →
        (rateLimit limit window m addr now st).2 other = m other) := by
  refine ⟨fun _ => rfl, ?_, by decide, ?_⟩
  · intro IP _ parseIP trustedProxies r h
    exact extractRealIP_untrusted parseIP r _ h
  · intro limit window m addr other now st h
    unfold rateLimit updateMap rateLimitKey
    by_cases hc : limit ≤ (((prune window now (m addr)).length : Int))
    · simp [if_pos hc, h]
    · simp [if_neg hc, h]

/-- C8 witness: with `limit = 1`, two requests from the same IP over different
source ports are both allowed — the second request's key still has an empty
history because the first request was recorded under the other key. -/
theorem C8_witness :
    ((rateLimit 1 100 (fun _ => []) "203.0.113.5:1000" 0 200).2 "203.0.113.5:2000" = [] ∧
      (rateLimit 1 100 (fun _ => []) "203.0.113.5:1000" 0 200).1 = 200) ∧
    (rateLimit 1 100
        (rateLimit 1 100 (fun _ => []) "203.0.113.5:1000" 0 200).2
        "203.0.113.5:2000" 0 200).1 = 200 :=
  ⟨⟨C8_ratelimit_key_verbatim_remoteaddr.2.2.2 1 100 (fun _ => []) "203.0.113.5:1000"
      "203.0.113.5:2000" 0 200 (by decide), by decide⟩, by decide⟩

/-! ## Precompressed server claims C3 and C7 -/

/-- Coherence of the TTL existence cache with the filesystem: every fresh
entry records the current existence of its key. -/
def cacheAccurate (statExists : String → Bool) (cache : String → Option CacheEntry)
    (now ttl : Int) : Prop :=
  ∀ k e, cache k = some e → now - e.time < ttl → e.present = statExists k

theorem resolveExists_accurate (statExists : String → Bool)
    (cache : String → Option CacheEntry) (now ttl : Int) (key : String)
    (h : cacheAccurate statExists cache now ttl) :
    (resolveExists statExists cache now ttl key).1 = statExists key := by
  unfold resolveExists
  cases hc : cache key with
  | none => simp
  | some e =>
    simp only
    by_cases hf : now - e.time < ttl
    · simp [if_pos hf, h key e hc hf]
    · simp [if_neg hf]

theorem resolveExists_preserves (statExists : String → Bool)
    (cache : String → Option CacheEntry) (now ttl : Int) (key : String)
    (h : cacheAccurate statExists cache now ttl) :
    cacheAccurate statExists (resolveExists statExists cache now ttl key).2 now ttl := by
  intro k e hk hf
  unfold resolveExists at hk
  cases hc : cache key with
  | none =>
    rw [hc] at hk
    dsimp only at hk
    by_cases hkk : k = key
    · rw [if_pos hkk] at hk
      cases hk
      rw [hkk]
    · rw [if_neg hkk] at hk
      exact h k e hk hf
  | some e0 =>
    rw [hc] at hk
    dsimp only at hk
    by_cases hf0 : now - e0.time < ttl
    · rw [if_pos hf0] at hk
      exact h k e hk hf
    · rw [if_neg hf0] at hk
      dsimp only at hk
      by_cases hkk : k = key
      · rw [if_pos hkk] at hk
        cases hk
        rw [hkk]
      · rw [if_neg hkk] at hk
        exact h k e hk hf

theorem pcGzipPhase_varyAE (mimeType : String → String) (statExists : String → Bool)
    (cache : String → Option CacheEntry) (now ttl : Int) (clean urlPath : String)
    (supportsGZ : Bool) :
    (pcGzipPhase mimeType statExists cache now ttl clean urlPath supportsGZ).1.varyAE = true := by
  unfold pcGzipPhase
  by_cases hgz : supportsGZ = true
  · rw [if_pos hgz]
    by_cases he : (resolveExists statExists cache now ttl (clean ++ ".gz")).1 = true
    · rw [if_pos he]
      rfl
    · rw [if_neg he]
      rfl
  · rw [if_neg hgz]
    rfl

theorem precompressedServe_getHead (pclean mimeType : String → String)
    (statExists : String → Bool) (cache : String → Option CacheEntry)
    (now ttl : Int) (r : PCRequest) (h : r.method = "GET" ∨ r.method = "HEAD") :
    precompressedServe pclean mimeType statExists cache now ttl r =
      if strContains r.acceptEncoding "br" then
        if (resolveExists statExists cache now ttl
              (pclean (trimLeadingSlash r.urlPath) ++ ".br")).1 then
          (encodedResult mimeType (pclean (trimLeadingSlash r.urlPath)) r.urlPath "br" ".br",
            (resolveExists statExists cache now ttl
              (pclean (trimLeadingSlash r.urlPath) ++ ".br")).2)
        else
          pcGzipPhase mimeType statExists
            (resolveExists statExists cache now ttl
              (pclean (trimLeadingSlash r.urlPath) ++ ".br")).2
            now ttl (pclean (trimLeadingSlash r.urlPath)) r.urlPath
            (strContains r.acceptEncoding "gzip")
      else
        pcGzipPhase mimeType statExists cache now ttl (pclean (trimLeadingSlash r.urlPath))
          r.urlPath (strContains r.acceptEncoding "gzip") := by
  have hm : ¬ (r.method ≠ "GET" ∧ r.method ≠ "HEAD") := by
    rcases h with h | h <;> simp [h]
  unfold precompressedServe
  rw [if_neg hm]

/-- C7 counterexample: a request with a method other than GET or HEAD is
passed straight to the base file server and the response carries no
`Vary: Accept-Encoding`, contradicting "regardless of HTTP method". -/
theorem C7_counterexample :
    (precompressedServe id (fun _ => "") (fun _ => false) (fun _ => none) 0 300000000000
        { method := "POST", urlPath := "/app.js", acceptEncoding := "br, gzip" }).1.varyAE
      = false := by
  decide

/-- C7 (amended): for every GET or HEAD request handled by the precompressed
asset server — regardless of which variant is served, of the cache contents,
and of what exists on disk — the response carries `Vary: Accept-Encoding`;
other methods fall through to the plain file server without it. -/
theorem C7_vary_on_get_head (pclean mimeType : String → String)
    (statExists : String → Bool) (cache : String → Option CacheEntry)
    (now ttl : Int) (r : PCRequest) (h : r.method = "GET" ∨ r.method = "HEAD") :
    (precompressedServe pclean mimeType statExists cache now ttl r).1.varyAE = true := by
  rw [precompressedServe_getHead pclean mimeType statExists cache now ttl r h]
  by_cases hbr : strContains r.acceptEncoding "br" = true
  · rw [if_pos hbr]
    by_cases he : (resolveExists statExists cache now ttl
        (pclean (trimLeadingSlash r.urlPath) ++ ".br")).1 = true
    · rw [if_pos he]
      rfl
    · rw [if_neg he]
      exact pcGzipPhase_varyAE _ _ _ _ _ _ _ _
  · rw [if_neg hbr]
    exact pcGzipPhase_varyAE _ _ _ _ _ _ _ _

/-- C7 witness: a GET request for an asset with a `.br` sibling carries the
`Vary` header. -/
theorem C7_witness :
    (precompressedServe id (fun _ => "application/javascript") (fun _ => true)
        (fun _ => none) 0 300000000000
        { method := "GET", urlPath := "/app.js", acceptEncoding := "br" }).1.varyAE = true :=
  C7_vary_on_get_head id (fun _ => "application/javascript") (fun _ => true)
    (fun _ => none) 0 300000000000
    { method := "GET", urlPath := "/app.js", acceptEncoding := "br" } (Or.inl rfl)

/-- C3. Variant negotiation for GET/HEAD asset requests, under a cache that is
coherent with the filesystem: when `Accept-Encoding` admits `br` (by
`strings.Contains`) and the `.br` sibling exists, the `.br` sibling is served
with `Content-Encoding: br`, the immutable year-long `Cache-Control`, and a
Content-Type derived from the original (uncompressed) extension; otherwise
under `gzip` the `.gz` sibling likewise; otherwise the original path with no
`Content-Encoding`, no `Cache-Control` and no middleware-set Content-Type
(`plainResult`) — a missing sibling is never an error, only a fall-through. -/
theorem C3_precompressed_negotiation (pclean mimeType : String → String)
    (statExists : String → Bool) (cache : String → Option CacheEntry)
    (now ttl : Int) (r : PCRequest)
    (hm : r.method = "GET" ∨ r.method = "HEAD")
    (hc : cacheAccurate statExists cache now ttl) :
    (strContains r.acceptEncoding "br" = true →
      statExists (pclean (trimLeadingSlash r.urlPath) ++ ".br") = true →
      (precompressedServe pclean mimeType statExists cache now ttl r).1 =
        encodedResult mimeType (pclean (trimLeadingSlash r.urlPath)) r.urlPath "br" ".br") ∧
    ((strContains r.acceptEncoding "br" = false ∨
        statExists (pclean (trimLeadingSlash r.urlPath) ++ ".br") = false) →
      strContains r.acceptEncoding "gzip" = true →
      statExists (pclean (trimLeadingSlash r.urlPath) ++ ".gz") = true →
      (precompressedServe pclean mimeType statExists cache now ttl r).1 =
        encodedResult mimeType (pclean (trimLeadingSlash r.urlPath)) r.urlPath "gzip" ".gz") ∧
    ((strContains r.acceptEncoding "br" = false ∨
        statExists (pclean (trimLeadingSlash r.urlPath) ++ ".br") = false) →
      (strContains r.acceptEncoding "gzip" = false ∨
        statExists (pclean (trimLeadingSlash r.urlPath) ++ ".gz") = false) →
      (precompressedServe pclean mimeType statExists cache now ttl r).1 =
        plainResult r.urlPath) := by
  rw [precompressedServe_getHead pclean mimeType statExists cache now ttl r hm]
  refine ⟨?_, ?_, ?_⟩
  · intro hbr hex
    have hres : (resolveExists statExists cache now ttl
        (pclean (trimLeadingSlash r.urlPath) ++ ".br")).1 = true := by
      rw [resolveExists_accurate statExists cache now ttl _ hc]
      exact hex
    rw [if_pos hbr, if_pos hres]
  · intro hbr hgz hex
    have hgzPhase : ∀ cc : String → Option CacheEntry,
        cacheAccurate statExists cc now ttl →
        (pcGzipPhase mimeType statExists cc now ttl (pclean (trimLeadingSlash r.urlPath))
            r.urlPath (strContains r.acceptEncoding "gzip")).1 =
          encodedResult mimeType (pclean (trimLeadingSlash r.urlPath)) r.urlPath "gzip" ".gz" := by
      intro cc hcc
      have hres : (resolveExists statExists cc now ttl
          (pclean (trimLeadingSlash r.urlPath) ++ ".gz")).1 = true := by
        rw [resolveExists_accurate statExists cc now ttl _ hcc]
        exact hex
      unfold pcGzipPhase
      rw [if_pos hgz, if_pos hres]
    rcases hbr with hbr | hbr
    · have hnb : ¬ strContains r.acceptEncoding "br" = true := by
        rw [hbr]
        exact Bool.false_ne_true
      rw [if_neg hnb]
      exact hgzPhase cache hc
    · by_cases hb : strContains r.acceptEncoding "br" = true
      · have hnr : ¬ (resolveExists statExists cache now ttl
            (pclean (trimLeadingSlash r.urlPath) ++ ".br")).1 = true := by
          rw [resolveExists_accurate statExists cache now ttl _ hc, hbr]
          exact Bool.false_ne_true
        rw [if_pos hb, if_neg hnr]
        exact hgzPhase _ (resolveExists_preserves statExists cache now ttl _ hc)
      · rw [if_neg hb]
        exact hgzPhase cache hc
  · intro hbr hgz
    have hgzPhase : ∀ cc : String → Option CacheEntry,
        cacheAccurate statExists cc now ttl →
        (pcGzipPhase mimeType statExists cc now ttl (pclean (trimLeadingSlash r.urlPath))
            r.urlPath (strContains r.acceptEncoding "gzip")).1 =
          plainResult r.urlPath := by
      intro cc hcc
      unfold pcGzipPhase
      rcases hgz with hg | hg
      · have hng : ¬ strContains r.acceptEncoding "gzip" = true := by
          rw [hg]
          exact Bool.false_ne_true
        rw [if_neg hng]
      · by_cases hgb : strContains r.acceptEncoding "gzip" = true
        · have hnr : ¬ (resolveExists statExists cc now ttl
              (pclean (trimLeadingSlash r.urlPath) ++ ".gz")).1 = true := by
            rw [resolveExists_accurate statExists cc now ttl _ hcc, hg]
            exact Bool.false_ne_true
          rw [if_pos hgb, if_neg hnr]
        · rw [if_neg hgb]
    rcases hbr with hbr | hbr
    · have hnb : ¬ strContains r.acceptEncoding "br" = true := by
        rw [hbr]
        exact Bool.false_ne_true
      rw [if_neg hnb]
      exact hgzPhase cache hc
    · by_cases hb : strContains r.acceptEncoding "br" = true
      · have hnr : ¬ (resolveExists statExists cache now ttl
            (pclean (trimLeadingSlash r.urlPath) ++ ".br")).1 = true := by
          rw [resolveExists_accurate statExists cache now ttl _ hc, hbr]
          exact Bool.false_ne_true
        rw [if_pos hb, if_neg hnr]
        exact hgzPhase _ (resolveExists_preserves statExists cache now ttl _ hc)
      · rw [if_neg hb]
        exact hgzPhase cache hc

/-- C3 witness: the spec's concrete scenario — `app.js` with a `.br` sibling,
requested with `Accept-Encoding: br`, served as the `.br` sibling with
`Content-Encoding: br`, the immutable Cache-Control, and the Content-Type of
the original `.js` extension. -/
theorem C3_witness :
    (precompressedServe id (fun e => if e = ".js" then "application/javascript" else "")
        (fun p => p == "app.js.br") (fun _ => none) 0 300000000000
        { method := "GET", urlPath := "/app.js", acceptEncoding := "br" }).1 =
      { varyAE := true, contentType := some "application/javascript",
        contentEncoding := some "br",
        cacheControl := some "public, max-age=31536000, immutable",
        servedPath := "/app.js.br" } := by
  have h := (C3_precompressed_negotiation id
      (fun e => if e = ".js" then "application/javascript" else "")
      (fun p => p == "app.js.br") (fun _ => none) 0 300000000000
      { method := "GET", urlPath := "/app.js", acceptEncoding := "br" }
      (Or.inl rfl) (fun k e hk => by cases hk)).1 (by decide) (by decide)
  rw [h]
  decide

/-! ## ETag middleware claim C9 -/

theorem etagOfBytes_ne_empty (bs : List Nat) : etagOfBytes bs ≠ "" := by
  intro h
  have hlen := congrArg String.length h
  simp only [etagOfBytes, String.length_append] at hlen
  have h1 : ("\"" : String).length = 1 := rfl
  have h0 : ("" : String).length = 0 := rfl
  rw [h1, h0] at hlen
  omega

theorem etagWrite_after (s : PipeState) (data : List Nat)
    (hc : s.committed = true) (he : hdrGet s.hdr "ETag" ≠ "") :
    etagWrite s data = { s with etagBody := s.etagBody ++ data, out := s.out ++ data } := by
  unfold etagWrite realWrite realCommit
  dsimp only
  rw [if_neg he, if_pos hc]

theorem etagRun_writes_committed (path : List Nat) (chunks : List (List Nat)) :
    ∀ s : PipeState, s.committed = true → hdrGet s.hdr "ETag" ≠ "" →
    (chunks.map HOp.write).foldl (etagApply path) s =
      { s with etagBody := s.etagBody ++ chunks.flatten, out := s.out ++ chunks.flatten } := by
  induction chunks with
  | nil => intro s _ _; simp
  | cons c cs ih =>
    intro s hc he
    have hstep : etagApply path s (HOp.write c) =
        { s with etagBody := s.etagBody ++ c, out := s.out ++ c } :=
      etagWrite_after s c hc he
    simp only [List.map_cons, List.foldl_cons, hstep]
    rw [ih { s with etagBody := s.etagBody ++ c, out := s.out ++ c } hc he]
    simp [List.append_assoc]

/-- C9. ETag commitment semantics of `etagResponseWriter`: for a handler that
writes its body in chunks (and sets no ETag itself), the response headers
commit with the first `Write`, carrying an ETag equal to the quoted lowercase
hex of the first 8 bytes of the SHA-256 of the FIRST chunk alone — later
chunks never change it, while the whole body still reaches the client; and for
a handler that calls `WriteHeader` with an empty body, the committed ETag is
derived from the request URL path instead. -/
theorem C9_etag_first_chunk_and_path_fallback :
    (∀ (path c1 : List Nat) (rest : List (List Nat)),
      hdrGet (etagRun path ((c1 :: rest).map HOp.write)).cHdr "ETag" = etagOfBytes c1 ∧
      (etagRun path ((c1 :: rest).map HOp.write)).committed = true ∧
      (etagRun path ((c1 :: rest).map HOp.write)).out = (c1 :: rest).flatten) ∧
    (∀ (path : List Nat) (code : Nat),
      hdrGet (etagRun path [HOp.writeHeader code]).cHdr "ETag" = etagOfBytes path ∧
      (etagRun path [HOp.writeHeader code]).out = []) := by
  constructor
  · intro path c1 rest
    have hfirst : etagApply path pipeInit (HOp.write c1) =
        { hdr := [("ETag", etagOfBytes c1)], committed := true, cStatus := 200,
          cHdr := [("ETag", etagOfBytes c1)], out := c1, etagBody := c1,
          cwShould := false, gzInit := false, gzBuf := [], cwBuf := [] } := rfl
    have hrest := etagRun_writes_committed path rest
      { hdr := [("ETag", etagOfBytes c1)], committed := true, cStatus := 200,
        cHdr := [("ETag", etagOfBytes c1)], out := c1, etagBody := c1,
        cwShould := false, gzInit := false, gzBuf := [], cwBuf := [] }
      rfl (by
        have : hdrGet [("ETag", etagOfBytes c1)] "ETag" = etagOfBytes c1 := rfl
        rw [this]
        exact etagOfBytes_ne_empty c1)
    unfold etagRun
    simp only [List.map_cons, List.foldl_cons, hfirst, hrest]
    refine ⟨?_, ?_, ?_⟩ <;> first | rfl | trivial
  · intro path code
    exact ⟨rfl, rfl⟩

/-! ## ETag/compression composition claim C4 -/

/-- The compression allow-list configured in `app.New`. -/
def appAllowedTypes : List String :=
  ["text/html", "text/css", "application/javascript", "application/json", "image/svg+xml"]

/-- The failing handler for C4: set an allow-listed Content-Type, commit the
headers, then write the body — the ordinary explicit-header handler shape. -/
def c4Ops : List HOp :=
  [HOp.setHeader "Content-Type" "text/html", HOp.writeHeader 200,
   HOp.write (asciiBytes "Hello, World!")]

/-- C4 (refuting the claim at a concrete input): in the composition
`mw.ETag(mw.Compress(5, ...))` with a gzip-accepting client, an allow-listed
Content-Type and a handler that commits headers before writing, the response
IS gzip-encoded but the committed ETag equals the hash of the request URL path
`/about` — at header-commit time the ETag writer has seen no body bytes, and
the gzip stream that later reaches it can no longer change the committed
header.  The committed ETag differs from the hash of the uncompressed body
`Hello, World!`, for every behaviour of the gzip encoder. -/
theorem C4_etag_not_from_uncompressed_content :
    ∀ gz : List Nat → List Nat,
      hdrGet (etagCompressRun gz appAllowedTypes (asciiBytes "/about") c4Ops).cHdr "ETag" =
        etagOfBytes (asciiBytes "/about") ∧
      hdrGet (etagCompressRun gz appAllowedTypes (asciiBytes "/about") c4Ops).cHdr
        "Content-Encoding" = "gzip" ∧
      etagOfBytes (asciiBytes "/about") ≠ etagOfBytes (asciiBytes "Hello, World!") := by
  intro gz
  have h1 : (c4Ops.foldl (cwApply (asciiBytes "/about") appAllowedTypes) pipeInit).committed
      = true := by decide
  have hne : hdrGet (c4Ops.foldl (cwApply (asciiBytes "/about") appAllowedTypes)
      pipeInit).hdr "ETag" ≠ "" := by decide
  have h5 : (c4Ops.foldl (cwApply (asciiBytes "/about") appAllowedTypes) pipeInit).gzInit
      = true := by decide
  have h3 : hdrGet (c4Ops.foldl (cwApply (asciiBytes "/about") appAllowedTypes)
      pipeInit).cHdr "ETag" = etagOfBytes (asciiBytes "/about") := by decide
  have h4 : hdrGet (c4Ops.foldl (cwApply (asciiBytes "/about") appAllowedTypes)
      pipeInit).cHdr "Content-Encoding" = "gzip" := by decide
  unfold etagCompressRun cwClose
  rw [if_pos h5, etagWrite_after _ _ h1 hne]
  exact ⟨h3, h4, by decide⟩

/-! ## Deadline guard claim C2 -/

/-- Reachability invariant of the timeout race: the handler has consumed some
prefix of its operations into the capture buffer; before a decision nothing
has been sent; after the decision the wire holds exactly the 408 or exactly
the flush of the fully-captured response. -/
def tInv (ops : List HOp) (s : TState) : Prop :=
  (∃ done rest, ops = done ++ rest ∧ s.pending = rest ∧
    s.cap = done.foldl capApply capInit) ∧
  (s.decided = false → s.sent = []) ∧
  (s.decided = true →
    s.sent = [resp408] ∨ s.sent = [capFlush (ops.foldl capApply capInit)])

theorem tInv_init (ops : List HOp) : tInv ops (tInit ops) := by
  refine ⟨⟨[], ops, by simp, rfl, rfl⟩, fun _ => rfl, fun h => by cases h⟩

theorem tStep_preserves (ops : List HOp) (s s' : TState) (e : TEvent)
    (hinv : tInv ops s) (hstep : tStep s e = some s') : tInv ops s' := by
  obtain ⟨⟨done, rest, hops, hpend, hcap⟩, hundec, hdec⟩ := hinv
  cases e with
  | hstep =>
    unfold tStep at hstep
    cases hrest : s.pending with
    | nil =>
      rw [hrest] at hstep
      cases hstep
    | cons op rest' =>
      rw [hrest] at hstep
      cases hstep
      have hre : rest = op :: rest' := by rw [← hpend, hrest]
      refine ⟨⟨done ++ [op], rest', by rw [hops, hre]; simp, rfl, ?_⟩, hundec, hdec⟩
      dsimp only
      rw [List.foldl_append, hcap]
      rfl
  | fire =>
    unfold tStep at hstep
    by_cases hd : s.decided = true
    · rw [if_pos hd] at hstep
      cases hstep
    · rw [if_neg hd] at hstep
      cases hstep
      have hsent : s.sent = [] := hundec (Bool.not_eq_true s.decided ▸ hd)
      refine ⟨⟨done, rest, hops, hpend, hcap⟩, ?_, ?_⟩
      · intro h
        cases h
      · intro _
        left
        rw [hsent]
        rfl
  | complete =>
    unfold tStep at hstep
    by_cases hd : (s.decided || !s.pending.isEmpty) = true
    · rw [if_pos hd] at hstep
      cases hstep
    · rw [if_neg hd] at hstep
      cases hstep
      have hdp := Bool.or_eq_false_iff.mp (Bool.not_eq_true _ ▸ hd)
      have hsent : s.sent = [] := hundec hdp.1
      have hpe : s.pending = [] := by
        have := hdp.2
        cases hp : s.pending with
        | nil => rfl
        | cons a b =>
          rw [hp] at this
          simp at this
      have hrestnil : rest = [] := by rw [← hpend, hpe]
      have hcapfull : s.cap = ops.foldl capApply capInit := by
        rw [hcap, hops, hrestnil, List.append_nil]
      refine ⟨⟨done, rest, hops, hpend, hcap⟩, ?_, ?_⟩
      · intro h
        cases h
      · intro _
        right
        rw [hsent, hcapfull]
        rfl

theorem tRun_preserves (ops : List HOp) (sched : List TEvent) :
    ∀ s s' : TState, tInv ops s → tRun s sched = some s' → tInv ops s' := by
  induction sched with
  | nil =>
    intro s s' hinv hrun
    unfold tRun at hrun
    cases hrun
    exact hinv
  | cons e es ih =>
    intro s s' hinv hrun
    unfold tRun at hrun
    cases hstep : tStep s e with
    | none =>
      rw [hstep] at hrun
      cases hrun
    | some s1 =>
      rw [hstep] at hrun
      exact ih s1 s' (tStep_preserves ops s s1 e hinv hstep) hrun

/-- C2. Torn-response exclusion of the deadline guard: the handler goroutine
writes only into the capture buffer, and the middleware goroutine is the only
writer to the client connection, sending at most one response.  Under every
schedule of handler steps, deadline firing and completion: before a decision
nothing has reached the client; after it the client holds either exactly the
408 response or exactly the handler's captured status, headers and body —
never bytes of both.  In particular a handler still running when the deadline
fires (`fire` before its steps finish) contributes no bytes before the 408. -/
theorem C2_timeout_torn_response_exclusion :
    ∀ (ops : List HOp) (sched : List TEvent) (s' : TState),
      tRun (tInit ops) sched = some s' →
      (s'.decided = false → s'.sent = []) ∧
      (s'.decided = true →
        s'.sent = [resp408] ∨ s'.sent = [capFlush (ops.foldl capApply capInit)]) := by
  intro ops sched s' hrun
  have hinv := tRun_preserves ops sched (tInit ops) s' (tInv_init ops) hrun
  exact ⟨hinv.2.1, hinv.2.2⟩

/-- C2 witness: the deadline fires while a handler that writes `hello` is
still pending; the client receives exactly the 408. -/
theorem C2_witness :
    ([resp408] : List ClientResponse) = [resp408] ∨
      ([resp408] : List ClientResponse) =
        [capFlush ([HOp.write (asciiBytes "hello")].foldl capApply capInit)] :=
  (C2_timeout_torn_response_exclusion [HOp.write (asciiBytes "hello")]
      [TEvent.fire, TEvent.hstep]
      { pending := [],
        cap := { hdr := [], statusCode := 200, wroteHeader := true,
                 buf := asciiBytes "hello" },
        sent := [resp408], decided := true }
      rfl).2 rfl

/-! ## Startup fail-fast claim C6 -/

theorem firstReadable_all_none (read : String → Option (List Nat)) :
    ∀ ps : List String, (∀ p ∈ ps, read p = none) → firstReadable read ps = none := by
  intro ps
  induction ps with
  | nil => intro _; rfl
  | cons p rest ih =>
    intro h
    unfold firstReadable
    rw [h p (by simp)]
    exact ih (fun q hq => h q (by simp [hq]))

/-- C6. Startup fail-fast on manifest failure: `loadManifest` returns an error
when no manifest path is readable, when the bytes do not parse, and when the
parsed `files` map is empty — and a successful load is never empty; `main`
exits (the server is never constructed) whenever the asset-manager step fails;
and the historical `app.New` versions-map gate panics whenever
`BuildAssetVersions` fails deterministically (the retry sees the same
result). -/
theorem C6_manifest_failfast :
    (∀ (read : String → Option (List Nat))
        (unmarshal : List Nat → Option (List (String × AssetInfo))),
      ((∀ p ∈ manifestPaths, read p = none) →
        exceptOk (loadManifest read unmarshal) = false) ∧
      (∀ bs, firstReadable read manifestPaths = some bs → unmarshal bs = none →
        exceptOk (loadManifest read unmarshal) = false) ∧
      (∀ bs, firstReadable read manifestPaths = some bs → unmarshal bs = some [] →
        exceptOk (loadManifest read unmarshal) = false) ∧
      (∀ m, loadManifest read unmarshal = .ok m → m ≠ [])) ∧
    (∀ (configValid httpsValid dbConnected dbPinged rendererOk : Bool)
        (mres : Except String (List (String × AssetInfo))),
      exceptOk mres = false →
      mainStarts configValid httpsValid dbConnected dbPinged mres rendererOk = false) ∧
    (∀ res : Except String (List (String × String)),
      buildVersionsGate res res = exceptOk res) := by
  refine ⟨?_, ?_, ?_⟩
  · intro read unmarshal
    refine ⟨?_, ?_, ?_, ?_⟩
    · intro h
      unfold loadManifest
      rw [firstReadable_all_none read manifestPaths h]
      rfl
    · intro bs h hu
      unfold loadManifest
      rw [h]
      dsimp only
      rw [hu]
      rfl
    · intro bs h hu
      unfold loadManifest
      rw [h]
      dsimp only
      rw [hu]
      rfl
    · intro m h
      unfold loadManifest at h
      cases hf : firstReadable read manifestPaths with
      | none =>
        rw [hf] at h
        cases h
      | some bs =>
        rw [hf] at h
        dsimp only at h
        cases hu : unmarshal bs with
        | none =>
          rw [hu] at h
          cases h
        | some files =>
          rw [hu] at h
          dsimp only at h
          by_cases hl : files.length = 0
          · rw [if_pos hl] at h
            cases h
          · rw [if_neg hl] at h
            cases h
            intro hm
            exact hl (by rw [hm]; rfl)
  · intro cv hv dc dp ro mres h
    unfold mainStarts
    rw [h]
    simp
  · intro res
    cases res with
    | ok m => rfl
    | error e => rfl

/-- C6 witness: with a filesystem where no manifest path is readable the load
fails and `main` (all its other steps healthy) never starts the server. -/
theorem C6_witness :
    exceptOk (loadManifest (fun _ => none) (fun _ => none)) = false ∧
    mainStarts true true true true (Except.error "failed to load asset manifest") true
      = false :=
  ⟨(C6_manifest_failfast.1 (fun _ => none) (fun _ => none)).1 (fun _ _ => rfl),
    C6_manifest_failfast.2.1 true true true true true
      (Except.error "failed to load asset manifest") rfl⟩

/-! ## Asset manager lookup claim C10 -/

/-- C10 counterexample: an `AssetManager` whose `logger` is nil (a legal
configuration — every other method nil-checks it) panics in `AssetURL` on a
path absent from the manifest, because the not-found branch calls
`am.logger.Warn` without the nil check; the lookup is not pan­ic-free as
claimed. -/
theorem C10_counterexample :
    assetURL false [] "/missing.css" = Except.error () := rfl

/-- C10 (amended): provided the manager holds a non-nil logger — as in every
deployed construction — lookups are total and silently fall back: a path
absent under both tried forms yields `AssetURL = the argument` and
`AssetSRI = ""`, with no error; a present path yields the recorded versioned
path and recorded SRI regardless of the logger. -/
theorem C10_lookup_total_with_logger :
    (∀ (m : List (String × AssetInfo)) (p : String),
      firstHit m (pathsToTry p) = none →
      assetURL true m p = .ok p ∧ assetSRI true m p = .ok "") ∧
    (∀ (m : List (String × AssetInfo)) (p : String) (b : Bool) (info : AssetInfo),
      firstHit m (pathsToTry p) = some info →
      assetURL b m p = .ok info.path ∧ assetSRI b m p = .ok info.sri) := by
  constructor
  · intro m p h
    constructor
    · simp [assetURL, h]
    · simp [assetSRI, h]
  · intro m p b info h
    constructor
    · simp [assetURL, h]
    · simp [assetSRI, h]

/-- A sample manifest record for the C10 witness. -/
def demoInfo : AssetInfo :=
  { path := "app.abc123.js"
    filename := "app.abc123.js"
    sri := "sha384-x"
    size := 8
    contentType := "application/javascript" }

/-- C10 witness: the empty manifest misses every path; with a non-nil logger
the lookups fall back silently, and a present path returns its record. -/
theorem C10_witness :
    (assetURL true [] "/css/main.css" = .ok "/css/main.css" ∧
      assetSRI true [] "/css/main.css" = .ok "") ∧
    assetURL true [("app.js", demoInfo)] "app.js" = .ok "app.abc123.js" :=
  ⟨C10_lookup_total_with_logger.1 [] "/css/main.css" rfl,
    (C10_lookup_total_with_logger.2 [("app.js", demoInfo)] "app.js" true demoInfo rfl).1⟩

end GuitarSpecs
